import Mathlib

/-!
Shallow embedding of the weasel project-command cache core: content hashing
(get_checksum), lock-file maintenance (get_lock_entry, get_fileinfo,
update_lockfile), the push guard of project_push (_is_not_empty_dir), the
path-safety helper (is_subpath_of), download_file, _transport_params and
load_project_config, together with spec-modelled stand-ins for the remote
storage operations whose module is not among the sources.

Machine integers and digests: MD5 is modelled as an abstract injective digest
of the input byte string (a Digest value carrying the hashed bytes); digest
collisions are below the abstraction level, matching the specification, which
treats hashes as pure functions of byte content.

File contents are byte lists (List Nat); filesystem paths are component lists
(List String). A Python process abort (msg.fail with exits=1, or sys.exit) is
the PyResult.sysExit constructor; a propagated Python exception is
PyResult.exc.
-/

namespace Weasel

/-- Bytes of a file, one natural number per byte. -/
abbrev Bytes := List Nat

/-- A filesystem path, given by its list of components. -/
abbrev PathC := List String

/-- A digest value. MD5 is modelled as an abstract injective digest: the
Digest value carries the hashed bytes, so equal inputs give equal digests and
distinct inputs give distinct digests. -/
structure Digest where
  data : Bytes
deriving DecidableEq

/-- The modelled MD5 function (hashlib.md5 followed by hexdigest). -/
def md5 (b : Bytes) : Digest := ⟨b⟩

/-- Encoding of a string as its character codes, used both for ordering and
for feeding strings into the digest. -/
def strBytes (s : String) : Bytes := s.data.map Char.toNat

/-- Encoding of a path for the lexicographic order used by sorted() on paths:
componentwise, each component by its character codes. -/
def encodePath (p : PathC) : List (List Nat) := p.map (fun s => s.data.map Char.toNat)

/-- The order in which sorted() visits paths: lexicographic on components. -/
def pathLe (p q : PathC) : Prop := encodePath p ≤ encodePath q

instance : DecidableRel pathLe := fun p q =>
  inferInstanceAs (Decidable (encodePath p ≤ encodePath q))

/-- The sort performed by sorted() over the paths found by rglob. -/
def sortPaths (l : List PathC) : List PathC := List.insertionSort pathLe l

/-- Association-list lookup, the access pattern of a Python dict. -/
def alookup {κ V : Type} [DecidableEq κ] : List (κ × V) → κ → Option V
  | [], _ => none
  | (k0, v) :: rest, k => if k0 = k then some v else alookup rest k

/-- Python dict assignment d[k] = v: replaces the entry for an existing key in
place, appends a fresh entry otherwise. -/
def setKey {κ V : Type} [DecidableEq κ] : List (κ × V) → κ → V → List (κ × V)
  | [], k, v => [(k, v)]
  | (k0, v0) :: rest, k, v =>
    if k0 = k then (k, v) :: rest else (k0, v0) :: setKey rest k v

/-- Componentwise prefix test on paths (p is an initial segment of q). -/
def prefixOfP : PathC → PathC → Bool
  | [], _ => true
  | _ :: _, [] => false
  | a :: as, b :: bs => decide (a = b) && prefixOfP as bs

/-- A filesystem for the hashing and lock-file layer: the regular files with
their bytes, the directories, and the entries that are neither (special
files, broken symlinks). -/
structure FS where
  files : List (PathC × Bytes)
  odirs : List PathC
  specials : List PathC
deriving DecidableEq

/-- Path.is_file. -/
def FS.isFile (fs : FS) (p : PathC) : Bool := decide (p ∈ fs.files.map Prod.fst)

/-- Path.is_dir. -/
def FS.isDir (fs : FS) (p : PathC) : Bool := decide (p ∈ fs.odirs)

/-- Path.exists. -/
def FS.pathExists (fs : FS) (p : PathC) : Bool :=
  fs.isFile p || fs.isDir p || decide (p ∈ fs.specials)

/-- The regular-file paths produced by path.rglob("*") filtered by is_file:
every file path strictly below the directory. -/
def filesUnder (files : List (PathC × Bytes)) (d : PathC) : List PathC :=
  (files.map Prod.fst).filter (fun q => prefixOfP d q && decide (q ≠ d))

/-- Read the bytes of a file (Path.read_bytes); total, missing paths give the
empty byte string and are never consulted by the callers below. -/
def lookupBytes (files : List (PathC × Bytes)) (p : PathC) : Bytes :=
  (alookup files p).getD []

/-- The byte stream fed into the directory digest of get_checksum: the bytes
of every contained file, concatenated in sorted path order. -/
def treeConcat (files : List (PathC × Bytes)) (d : PathC) : Bytes :=
  ((sortPaths (filesUnder files d)).map (lookupBytes files)).flatten

/-- The directory branch of get_checksum: a running MD5 over the bytes of all
contained files, visited in sorted order. -/
def hashTree (files : List (PathC × Bytes)) (d : PathC) : Digest :=
  md5 (treeConcat files d)

/-- Outcome of running a piece of Python code: a returned value, a direct
process exit (sys.exit, or msg.fail with exits=1), or a propagated
exception. -/
inductive PyResult (α : Type) where
  | ok (val : α)
  | sysExit (code : Nat)
  | exc (msg : String)
deriving DecidableEq

/-- get_checksum from weasel/util/_general.py: MD5 of the bytes for a file,
running MD5 over all contained files for a directory, and msg.fail with
exits=1 when the path is neither. -/
def get_checksum (fs : FS) (p : PathC) : PyResult Digest :=
  if !(fs.isFile p || fs.isDir p) then PyResult.sysExit 1
  else if fs.isFile p then PyResult.ok (md5 (lookupBytes fs.files p))
  else PyResult.ok (hashTree fs.files p)

/-- The digest get_checksum returns on a file or directory. -/
def checksumVal (fs : FS) (p : PathC) : Digest :=
  if fs.isFile p then md5 (lookupBytes fs.files p) else hashTree fs.files p

/-- One lock-file hash record, a dict with keys path and md5; the md5 value is
null when the path does not exist. -/
structure FileInfo where
  path : PathC
  md5 : Option Digest
deriving DecidableEq

/-- A command as defined in project.yml: name, help text, script lines,
declared dependencies, declared cached and non-cached outputs. -/
structure Command where
  name : String
  help : String
  script : List String
  deps : List PathC
  outputs : List PathC
  outputs_no_cache : List PathC
deriving DecidableEq

/-- A lock-file entry, mirroring the dict built by get_lock_entry. -/
structure LockEntry where
  cmd : String
  script : List String
  deps : List FileInfo
  outs : List FileInfo
  spacy_version : String
deriving DecidableEq

/-- The COMMAND constant from weasel/info.py. -/
def COMMANDC : String := "python -m weasel"

/-- The weasel package version tag recorded in lock entries; its concrete
value is irrelevant to every claim. -/
def weasel_version : String := "0.4.1"

/-- get_fileinfo from weasel/util/_general.py: for each path, record the path
together with its checksum when the path exists and null otherwise; a
checksum request on an existing path that is neither file nor directory
aborts exactly as get_checksum does. -/
def get_fileinfo (fs : FS) (dir : PathC) : List PathC → PyResult (List FileInfo)
  | [] => PyResult.ok []
  | p :: rest =>
    match (if fs.pathExists (dir ++ p) then
             match get_checksum fs (dir ++ p) with
             | PyResult.ok d => PyResult.ok (some d)
             | PyResult.sysExit c => PyResult.sysExit c
             | PyResult.exc m => PyResult.exc m
           else PyResult.ok none) with
    | PyResult.ok m =>
      match get_fileinfo fs dir rest with
      | PyResult.ok infos => PyResult.ok (⟨p, m⟩ :: infos)
      | PyResult.sysExit c => PyResult.sysExit c
      | PyResult.exc s => PyResult.exc s
    | PyResult.sysExit c => PyResult.sysExit c
    | PyResult.exc s => PyResult.exc s

/-- get_lock_entry from weasel/util/_general.py: the materialized command
string, the script, the dependency records, and the output records with the
cached outputs followed by the non-cached outputs. -/
def get_lock_entry (fs : FS) (dir : PathC) (c : Command) : PyResult LockEntry :=
  match get_fileinfo fs dir c.deps with
  | PyResult.sysExit n => PyResult.sysExit n
  | PyResult.exc m => PyResult.exc m
  | PyResult.ok deps =>
    match get_fileinfo fs dir c.outputs with
    | PyResult.sysExit n => PyResult.sysExit n
    | PyResult.exc m => PyResult.exc m
    | PyResult.ok outs =>
      match get_fileinfo fs dir c.outputs_no_cache with
      | PyResult.sysExit n => PyResult.sysExit n
      | PyResult.exc m => PyResult.exc m
      | PyResult.ok outs_nc =>
        PyResult.ok ⟨COMMANDC ++ " run " ++ c.name, c.script, deps, outs ++ outs_nc,
                     weasel_version⟩

/-- update_lockfile from weasel/util/_general.py: read the lock file (an
absent file reads as the empty mapping), compute the entry for the command,
assign it under the command name, write the whole mapping back. -/
def update_lockfile (fs : FS) (dir : PathC) (existing : Option (List (String × LockEntry)))
    (c : Command) : PyResult (List (String × LockEntry)) :=
  let data := existing.getD []
  match get_lock_entry fs dir c with
  | PyResult.ok e => PyResult.ok (setKey data c.name e)
  | PyResult.sysExit n => PyResult.sysExit n
  | PyResult.exc m => PyResult.exc m

/-- The characterization used by the lock-entry claim: the record produced
for each declared path. -/
def fileinfo_spec (fs : FS) (dir : PathC) (ps : List PathC) : List FileInfo :=
  ps.map (fun p =>
    ⟨p, if fs.pathExists (dir ++ p) then some (checksumVal fs (dir ++ p)) else none⟩)

/-- download_file from weasel/util/remote.py, over the observable state it
touches: the bytes stored at the destination (none when the destination does
not exist) and whether the source was opened. Returns the new destination
bytes and the source-was-read flag. -/
def download_file (srcContent : Bytes) (dest : Option Bytes) (force : Bool) :
    Option Bytes × Bool :=
  if dest.isSome && !force then (dest, false) else (some srcContent, true)

/-- A string test equivalent to str.startswith, on character codes. -/
def startsWithB (pre s : String) : Bool := pre.data.isPrefixOf s.data

/-- The transport-parameter helper from weasel/util/remote.py: for an
azure:// URL without AZURE_STORAGE_CONNECTION_STRING in the environment it
prints a failure and calls sys.exit(1); otherwise it returns the connection
string, or nothing for non-azure URLs. -/
def transport_params (url : String) (env : String → Option String) :
    PyResult (Option String) :=
  if startsWithB "azure://" url then
    match env "AZURE_STORAGE_CONNECTION_STRING" with
    | none => PyResult.sysExit 1
    | some cs => PyResult.ok (some cs)
  else PyResult.ok none

/-- The observable inputs of load_project_config from
weasel/util/_general.py: whether project.yml exists, whether it parses as
YAML, the schema validation errors, and the parsed configuration. -/
structure ProjectDirState where
  configExists : Bool
  yamlParses : Bool
  schemaErrors : List String
  config : List (String × String)
deriving DecidableEq

/-- load_project_config from weasel/util/_general.py: msg.fail with exits=1
when project.yml is missing or fails to parse, and print plus sys.exit(1) on
schema validation errors; otherwise the parsed configuration. -/
def load_project_config (st : ProjectDirState) : PyResult (List (String × String)) :=
  if !st.configExists then PyResult.sysExit 1
  else if !st.yamlParses then PyResult.sysExit 1
  else if decide (st.schemaErrors ≠ []) then PyResult.sysExit 1
  else PyResult.ok st.config

/-- A local filesystem entry for the push guard of project_push: a regular
file with its bytes, or a directory with named children. -/
inductive Node where
  | file (content : Bytes) : Node
  | dir (children : List (String × Node)) : Node

mutual
/-- The helper _is_not_empty_dir from weasel/cli/push.py: true on anything
that is not a directory, and on a directory with a non-empty descendant. -/
def is_not_empty_dir : Node → Bool
  | Node.file _ => true
  | Node.dir cs => anyNotEmpty cs
/-- The any(...) generator inside _is_not_empty_dir, over the children. -/
def anyNotEmpty : List (String × Node) → Bool
  | [] => false
  | c :: rest => is_not_empty_dir c.2 || anyNotEmpty rest
end

mutual
/-- The bytes of every regular file contained in a node, at any depth. -/
def filesIn : Node → List Bytes
  | Node.file b => [b]
  | Node.dir cs => filesInList cs
/-- The bytes of every regular file contained below a list of children. -/
def filesInList : List (String × Node) → List Bytes
  | [] => []
  | c :: rest => filesIn c.2 ++ filesInList rest
end

/-- The current local bytes of an output tree, concatenated. -/
def nodeBytes (n : Node) : Bytes := (filesIn n).flatten

/-- One stored artifact of the remote store: logical path, command hash,
content hash, storage timestamp, payload bytes. -/
structure Artifact where
  relPath : PathC
  cmdHash : Digest
  contentHash : Digest
  timestamp : Nat
  payload : Bytes
deriving DecidableEq

/-- A backend location identifier, as returned by push. -/
structure Loc where
  relPath : PathC
  cmdHash : Digest
  contentHash : Digest
  timestamp : Nat
deriving DecidableEq

/-- Modelled from the spec: RemoteStorage.push (weasel/cli/remote_storage.py
is not among the sources) writes the current local bytes to the backend under
a key derived from the relative path, the command hash, the content hash and
the push-time timestamp, and returns the resulting backend location. -/
def storage_push (backend : List Artifact) (relPath : PathC) (ch cch : Digest)
    (ts : Nat) (payload : Bytes) : List Artifact × Option Loc :=
  (backend ++ [⟨relPath, ch, cch, ts, payload⟩], some ⟨relPath, ch, cch, ts⟩)

/-- Modelled from the spec: get_content_hash (weasel/util/_remote_storage.py
is not among the sources) is the content hash of the current bytes of the
output path. -/
def get_content_hash (n : Node) : Digest := md5 (nodeBytes n)

/-- The per-output body of the loop in project_push from weasel/cli/push.py:
an output is pushed, and its location yielded, only when the local path
exists and _is_not_empty_dir holds of it. -/
def project_push_output (backend : List Artifact) (relPath : PathC) (loc : Option Node)
    (cmdHash : Digest) (ts : Nat) : List Artifact × Option Loc :=
  match loc with
  | none => (backend, none)
  | some n =>
    if is_not_empty_dir n then
      storage_push backend relPath cmdHash (get_content_hash n) ts (nodeBytes n)
    else (backend, none)

/-- Modelled from the spec: the candidate enumeration of RemoteStorage.pull
(weasel/cli/remote_storage.py is not among the sources) — all stored versions
for the logical path, filtered by exact match on the command hash when
supplied, then by exact match on the content hash when supplied. -/
def pull_candidates (backend : List Artifact) (p : PathC) (ch cch : Option Digest) :
    List Artifact :=
  (((backend.filter (fun a => decide (a.relPath = p))).filter
      (fun a => match ch with | none => true | some h => decide (a.cmdHash = h))).filter
      (fun a => match cch with | none => true | some h => decide (a.contentHash = h)))

/-- Modelled from the spec: the latest-wins selection of RemoteStorage.pull —
among the surviving candidates, the one with the greatest storage
timestamp. -/
def select_latest : List Artifact → Option Artifact
  | [] => none
  | a :: rest =>
    match select_latest rest with
    | none => some a
    | some b => if b.timestamp > a.timestamp then some b else some a

/-- Modelled from the spec: RemoteStorage.pull — copy the payload of the
selected artifact to the local relative path below the project root, and
leave the local filesystem untouched when no candidate survives. -/
def storage_pull (backend : List Artifact) (localFiles : List (PathC × Bytes))
    (root p : PathC) (ch cch : Option Digest) : List (PathC × Bytes) :=
  match select_latest (pull_candidates backend p ch cch) with
  | none => localFiles
  | some a => setKey localFiles (root ++ p) a.payload

/-- Modelled from the spec: get_command_hash from weasel/util/_remote_storage
(not among the sources) — a digest over a canonical encoding of the site and
environment placeholder strings, the per-dependency content hashes combined
in a fixed sorted-path order, and the script lines. -/
def get_command_hash (site env : String) (depHashes : List Digest)
    (script : List String) : Digest :=
  md5 (strBytes site ++ strBytes env ++ (depHashes.map Digest.data).flatten ++
       (script.map strBytes).flatten)

/-- The per-dependency content hashes combined in sorted path order, as fed
into the command hash. -/
def dep_content_hashes (fs : FS) (dir : PathC) (deps : List PathC) : List Digest :=
  (sortPaths (deps.map (fun p => dir ++ p))).map (checksumVal fs)

/-- The command hash computed at the call site in project_push from
weasel/cli/push.py, which passes empty placeholder strings for the first two
arguments. -/
def push_command_hash (fs : FS) (dir : PathC) (c : Command) : Digest :=
  get_command_hash "" "" (dep_content_hashes fs dir c.deps) c.script

/-- Symlink table: each link path mapped to its already-resolved absolute
target. -/
abbrev SymTable := List (PathC × PathC)

/-- The component walk of os.path.realpath: dot components are dropped,
dot-dot components pop the accumulated path, symlinked components are
replaced by their targets. -/
def realpathAux (tbl : SymTable) (acc : PathC) : PathC → PathC
  | [] => acc
  | c :: rest =>
    if c = ".." then realpathAux tbl acc.dropLast rest
    else if c = "." then realpathAux tbl acc rest
    else
      match alookup tbl (acc ++ [c]) with
      | some target => realpathAux tbl target rest
      | none => realpathAux tbl (acc ++ [c]) rest

/-- os.path.realpath over the component model. -/
def realpath (tbl : SymTable) (p : PathC) : PathC := realpathAux tbl [] p

/-- os.path.commonpath of two absolute paths: their longest common component
prefix. -/
def commonpath : PathC → PathC → PathC
  | a :: as, b :: bs => if a = b then a :: commonpath as bs else []
  | _, _ => []

/-- is_subpath_of from weasel/util/_general.py: realpath both arguments, then
compare the common path with the realpath of the parent. -/
def is_subpath_of (tbl : SymTable) (parent child : PathC) : Bool :=
  decide (commonpath (realpath tbl parent) (realpath tbl child) = realpath tbl parent)

/-- The strictly-inside relation named by the path-safety claim: the resolved
destination extends the resolved directory and differs from it. -/
def strictlyInside (tbl : SymTable) (d q : PathC) : Bool :=
  prefixOfP (realpath tbl d) (realpath tbl q) && decide (realpath tbl q ≠ realpath tbl d)

/-- Outcome of restoring a multi-entry payload. -/
inductive RestoreOutcome where
  | restored (written : List (PathC × Bytes))
  | pathTraversal
deriving DecidableEq

/-- Modelled from the spec: restoring a multi-entry payload (the safe
extraction inside RemoteStorage.pull, whose module is not among the sources)
— every destination, formed below the target directory, is checked with
is_subpath_of against the target before anything is written; if any entry
fails the check the whole restore is rejected as a path traversal and the
local files are left untouched, otherwise every entry is written. -/
def restore_entries (tbl : SymTable) (target : PathC) (entries : List (PathC × Bytes))
    (localFiles : List (PathC × Bytes)) : RestoreOutcome × List (PathC × Bytes) :=
  if entries.all (fun e => is_subpath_of tbl target (target ++ e.1)) then
    (RestoreOutcome.restored (entries.map (fun e => (target ++ e.1, e.2))),
     entries.foldl (fun acc e => setKey acc (target ++ e.1) e.2) localFiles)
  else (RestoreOutcome.pathTraversal, localFiles)

end Weasel

namespace Weasel

/-! Helper lemmas about the ordering of paths, association lists, and the
assignment operation of a dict. -/

theorem encodePath_injective : Function.Injective encodePath := by
  intro a b h
  have hs : Function.Injective (fun s : String => s.data.map Char.toNat) := by
    intro x y hxy
    have hc : Function.Injective Char.toNat := fun c d hcd => Char.ext (UInt32.ext hcd)
    exact String.ext (List.map_injective_iff.mpr hc hxy)
  exact List.map_injective_iff.mpr hs h

instance : IsTotal PathC pathLe :=
  ⟨fun a b => le_total (encodePath a) (encodePath b)⟩

instance : IsTrans PathC pathLe :=
  ⟨fun _ _ _ h1 h2 => le_trans h1 h2⟩

instance : IsAntisymm PathC pathLe :=
  ⟨fun _ _ h1 h2 => encodePath_injective (le_antisymm h1 h2)⟩

theorem sortPaths_perm (l : List PathC) : (sortPaths l).Perm l :=
  List.perm_insertionSort pathLe l

theorem sortPaths_eq_of_perm {l1 l2 : List PathC} (h : l1.Perm l2) :
    sortPaths l1 = sortPaths l2 := by
  apply List.eq_of_perm_of_sorted (r := pathLe)
  · exact ((sortPaths_perm l1).trans h).trans (sortPaths_perm l2).symm
  · exact List.sorted_insertionSort pathLe l1
  · exact List.sorted_insertionSort pathLe l2

theorem alookup_perm {κ V : Type} [DecidableEq κ] {l1 l2 : List (κ × V)}
    (h : l1.Perm l2) (hnd : (l1.map Prod.fst).Nodup) (k : κ) :
    alookup l1 k = alookup l2 k := by
  induction h with
  | nil => rfl
  | cons x h ih =>
    simp only [List.map_cons, List.nodup_cons] at hnd
    simp only [alookup]
    rw [ih hnd.2]
  | swap x y l =>
    simp only [List.map_cons, List.nodup_cons, List.mem_cons] at hnd
    have hxy : y.1 ≠ x.1 := fun he => hnd.1 (Or.inl he)
    simp only [alookup]
    by_cases h1 : y.1 = k
    · by_cases h2 : x.1 = k
      · exact absurd (h1.trans h2.symm) hxy
      · simp [h1, h2]
    · simp [h1]
  | trans h1 h2 ih1 ih2 =>
    have hnd2 := ((h1.map Prod.fst).nodup_iff).mp hnd
    rw [ih1 hnd, ih2 hnd2]

end Weasel

namespace Weasel

theorem alookup_setKey_self {κ V : Type} [DecidableEq κ] (d : List (κ × V)) (k : κ) (v : V) :
    alookup (setKey d k v) k = some v := by
  induction d with
  | nil => simp [setKey, alookup]
  | cons x rest ih =>
    by_cases h : x.1 = k
    · simp [setKey, h, alookup]
    · simp [setKey, h, alookup, ih]

theorem alookup_setKey_ne {κ V : Type} [DecidableEq κ] (d : List (κ × V)) (k : κ) (v : V)
    (k2 : κ) (hne : k2 ≠ k) : alookup (setKey d k v) k2 = alookup d k2 := by
  have hkk : ¬(k = k2) := fun h => hne h.symm
  induction d with
  | nil => simp [setKey, alookup, hkk]
  | cons x rest ih =>
    obtain ⟨x1, x2⟩ := x
    by_cases h : x1 = k
    · have h2 : ¬(x1 = k2) := by
        rw [h]
        exact hkk
      simp [setKey, h, alookup, hkk, h2]
    · simp [setKey, h, alookup, ih]

theorem mem_keys_setKey {κ V : Type} [DecidableEq κ] (d : List (κ × V)) (k : κ) (v : V)
    (k2 : κ) : k2 ∈ (setKey d k v).map Prod.fst ↔ k2 ∈ d.map Prod.fst ∨ k2 = k := by
  induction d with
  | nil => simp [setKey]
  | cons x rest ih =>
    by_cases h : x.1 = k
    · subst h
      simp [setKey]
      tauto
    · simp [setKey, h, ih]
      tauto

theorem nodup_keys_setKey {κ V : Type} [DecidableEq κ] (d : List (κ × V)) (k : κ) (v : V)
    (hnd : (d.map Prod.fst).Nodup) : ((setKey d k v).map Prod.fst).Nodup := by
  induction d with
  | nil => simp [setKey]
  | cons x rest ih =>
    obtain ⟨x1, x2⟩ := x
    simp only [List.map_cons, List.nodup_cons] at hnd
    by_cases h : x1 = k
    · subst h
      have hset : setKey ((x1, x2) :: rest) x1 v = (x1, v) :: rest := by simp [setKey]
      rw [hset, List.map_cons, List.nodup_cons]
      exact hnd
    · have hstep : (setKey ((x1, x2) :: rest) k v).map Prod.fst =
          x1 :: (setKey rest k v).map Prod.fst := by
        simp [setKey, h]
      rw [hstep, List.nodup_cons]
      refine ⟨?_, ih hnd.2⟩
      intro hmem
      rcases (mem_keys_setKey rest k v x1).mp hmem with hc | hc
      · exact hnd.1 hc
      · exact h hc

theorem get_checksum_ok (fs : FS) (p : PathC) (h : (fs.isFile p || fs.isDir p) = true) :
    get_checksum fs p = PyResult.ok (checksumVal fs p) := by
  unfold get_checksum checksumVal
  rw [h]
  by_cases hf : fs.isFile p <;> simp [hf]

theorem get_fileinfo_ok (fs : FS) (dir : PathC) (ps : List PathC)
    (h : ∀ p ∈ ps, fs.pathExists (dir ++ p) = true →
        (fs.isFile (dir ++ p) || fs.isDir (dir ++ p)) = true) :
    get_fileinfo fs dir ps = PyResult.ok (fileinfo_spec fs dir ps) := by
  induction ps with
  | nil => simp [get_fileinfo, fileinfo_spec]
  | cons p rest ih =>
    have hrest : get_fileinfo fs dir rest = PyResult.ok (fileinfo_spec fs dir rest) :=
      ih (fun q hq => h q (List.mem_cons_of_mem p hq))
    by_cases hex : fs.pathExists (dir ++ p) = true
    · have hok := get_checksum_ok fs (dir ++ p) (h p (List.mem_cons_self p rest) hex)
      simp [get_fileinfo, hex, hok, hrest, fileinfo_spec]
    · simp only [Bool.not_eq_true] at hex
      simp [get_fileinfo, hex, hrest, fileinfo_spec]

mutual
theorem is_not_empty_dir_false_iff (n : Node) :
    is_not_empty_dir n = false ↔ filesIn n = [] := by
  cases n with
  | file b => simp [is_not_empty_dir, filesIn]
  | dir cs =>
    rw [show is_not_empty_dir (Node.dir cs) = anyNotEmpty cs from rfl,
        show filesIn (Node.dir cs) = filesInList cs from rfl]
    exact anyNotEmpty_false_iff cs
theorem anyNotEmpty_false_iff (cs : List (String × Node)) :
    anyNotEmpty cs = false ↔ filesInList cs = [] := by
  cases cs with
  | nil => simp [anyNotEmpty, filesInList]
  | cons c rest =>
    rw [show anyNotEmpty (c :: rest) = (is_not_empty_dir c.2 || anyNotEmpty rest) from rfl,
        show filesInList (c :: rest) = filesIn c.2 ++ filesInList rest from rfl]
    rw [Bool.or_eq_false_iff, List.append_eq_nil]
    exact and_congr (is_not_empty_dir_false_iff c.2) (anyNotEmpty_false_iff rest)
end

theorem select_latest_spec (l : List Artifact) (a : Artifact)
    (h : select_latest l = some a) : a ∈ l ∧ ∀ b ∈ l, b.timestamp ≤ a.timestamp := by
  induction l generalizing a with
  | nil => simp [select_latest] at h
  | cons x rest ih =>
    rw [select_latest] at h
    cases hrest : select_latest rest with
    | none =>
      rw [hrest] at h
      cases h
      have hempty : rest = [] := by
        cases rest with
        | nil => rfl
        | cons y t =>
          rw [select_latest] at hrest
          cases hy : select_latest t <;> simp [hy] at hrest <;> split at hrest <;>
            simp_all
      subst hempty
      simp
    | some b =>
      rw [hrest] at h
      obtain ⟨hbmem, hbmax⟩ := ih b hrest
      by_cases hcmp : b.timestamp > x.timestamp
      · simp only [hcmp, if_pos] at h
        cases h
        exact ⟨List.mem_cons_of_mem x hbmem,
          fun c hc => by
            rcases List.mem_cons.mp hc with hcx | hcr
            · subst hcx
              exact le_of_lt hcmp
            · exact hbmax c hcr⟩
      · simp only [hcmp, if_neg, not_false_eq_true] at h
        cases h
        exact ⟨List.mem_cons_self _ _,
          fun c hc => by
            rcases List.mem_cons.mp hc with hcx | hcr
            · subst hcx
              exact le_refl _
            · exact le_trans (hbmax c hcr) (Nat.le_of_not_lt hcmp)⟩

theorem select_latest_none_iff (l : List Artifact) : select_latest l = none ↔ l = [] := by
  cases l with
  | nil => simp [select_latest]
  | cons x rest =>
    rw [select_latest]
    cases h : select_latest rest <;> simp [h] <;> split <;> simp

theorem commonpath_eq_left_iff (a b : PathC) : commonpath a b = a ↔ prefixOfP a b = true := by
  induction a generalizing b with
  | nil =>
    cases b <;> simp [commonpath, prefixOfP]
  | cons x xs ih =>
    cases b with
    | nil => simp [commonpath, prefixOfP]
    | cons y ys =>
      by_cases h : x = y
      · subst h
        simp [commonpath, prefixOfP, ih]
      · simp [commonpath, prefixOfP, h]

end Weasel

namespace Weasel

/-- C1 (counterexample): adding a file with empty bytes to a directory tree
changes the set of contained files but leaves the directory digest of
get_checksum unchanged, so the digest does not change whenever the set of
contained files changes. -/
theorem hashTree_added_empty_file_cex :
    hashTree [(["d", "a"], [1])] ["d"] =
      hashTree [(["d", "a"], [1]), (["d", "b"], [])] ["d"] ∧
    ["d", "b"] ∈ (([(["d", "a"], [1]), (["d", "b"], [])] :
        List (PathC × Bytes)).map Prod.fst) ∧
    ¬ ["d", "b"] ∈ (([(["d", "a"], [1])] : List (PathC × Bytes)).map Prod.fst) := by
  decide

/-- C1 (amended): the directory digest of get_checksum is invariant to
filesystem traversal order, and it is determined by exactly the
concatenation, in sorted path order, of the bytes of the contained files:
two directory listings give the same digest precisely when they give the
same concatenation (so a change that preserves the concatenation, such as
adding an empty file, does not change the digest, and any change to the
concatenation does). -/
theorem hashTree_traversal_invariant (f1 f2 g : List (PathC × Bytes)) (d : PathC)
    (hnd : (f1.map Prod.fst).Nodup) (hperm : f1.Perm f2) :
    hashTree f1 d = hashTree f2 d ∧
    (hashTree f1 d = hashTree g d ↔ treeConcat f1 d = treeConcat g d) := by
  constructor
  · unfold hashTree md5 treeConcat
    have hk : (f1.map Prod.fst).Perm (f2.map Prod.fst) := hperm.map Prod.fst
    have hf : (filesUnder f1 d).Perm (filesUnder f2 d) := by
      unfold filesUnder
      exact hk.filter _
    have hs : sortPaths (filesUnder f1 d) = sortPaths (filesUnder f2 d) :=
      sortPaths_eq_of_perm hf
    rw [hs]
    have hmap : (sortPaths (filesUnder f2 d)).map (lookupBytes f1) =
        (sortPaths (filesUnder f2 d)).map (lookupBytes f2) := by
      apply List.map_congr_left
      intro q _
      unfold lookupBytes
      rw [alookup_perm hperm hnd q]
    rw [hmap]
  · unfold hashTree md5
    constructor
    · intro h
      exact congrArg Digest.data h
    · intro h
      rw [h]

/-- C1 (witness for the amended theorem): a two-file tree listed in two
different traversal orders has one digest, and comparison with a third tree
reduces to comparison of the sorted byte concatenations. -/
theorem hashTree_traversal_invariant_witness :
    ((([(["d", "a"], [1]), (["d", "b"], [2])] :
        List (PathC × Bytes)).map Prod.fst).Nodup ∧
      ([(["d", "a"], [1]), (["d", "b"], [2])] : List (PathC × Bytes)).Perm
        [(["d", "b"], [2]), (["d", "a"], [1])]) ∧
    (hashTree [(["d", "a"], [1]), (["d", "b"], [2])] ["d"] =
        hashTree [(["d", "b"], [2]), (["d", "a"], [1])] ["d"] ∧
      (hashTree [(["d", "a"], [1]), (["d", "b"], [2])] ["d"] =
          hashTree [(["d", "c"], [1, 2])] ["d"] ↔
        treeConcat [(["d", "a"], [1]), (["d", "b"], [2])] ["d"] =
          treeConcat [(["d", "c"], [1, 2])] ["d"])) :=
  ⟨by decide,
   hashTree_traversal_invariant [(["d", "a"], [1]), (["d", "b"], [2])]
     [(["d", "b"], [2]), (["d", "a"], [1])] [(["d", "c"], [1, 2])] ["d"]
     (by decide) (by decide)⟩

/-- C2: update_lockfile merges the new entry into the existing mapping
replacing only the entry keyed by the command name: every entry for any
other command name is looked up unchanged afterwards, the mapping still has
at most one entry per command name, and the entry for the command name is
exactly the freshly computed lock entry. -/
theorem update_lockfile_frame (fs : FS) (dir : PathC) (data : List (String × LockEntry))
    (c : Command) (res : List (String × LockEntry))
    (hnd : (data.map Prod.fst).Nodup)
    (hres : update_lockfile fs dir (some data) c = PyResult.ok res) :
    (∀ k, k ≠ c.name → alookup res k = alookup data k) ∧
    ((res.map Prod.fst).Nodup) ∧
    (∃ e, get_lock_entry fs dir c = PyResult.ok e ∧ alookup res c.name = some e) := by
  unfold update_lockfile at hres
  cases hentry : get_lock_entry fs dir c with
  | ok e =>
    rw [hentry] at hres
    simp only [Option.getD_some, PyResult.ok.injEq] at hres
    subst hres
    refine ⟨?_, ?_, e, rfl, ?_⟩
    · intro k hk
      exact alookup_setKey_ne data c.name e k hk
    · exact nodup_keys_setKey data c.name e hnd
    · exact alookup_setKey_self data c.name e
  | sysExit n =>
    rw [hentry] at hres
    exact PyResult.noConfusion hres
  | exc m =>
    rw [hentry] at hres
    exact PyResult.noConfusion hres

/-- C2 (witness): updating a one-entry lock mapping with a new command keeps
the old entry unchanged and adds the new one. -/
theorem update_lockfile_frame_witness :
    (([("other", (⟨"x", [], [], [], "v"⟩ : LockEntry))].map Prod.fst).Nodup ∧
      update_lockfile ⟨[], [], []⟩ [] (some [("other", ⟨"x", [], [], [], "v"⟩)])
          ⟨"train", "", [], [], [], []⟩ =
        PyResult.ok [("other", ⟨"x", [], [], [], "v"⟩),
          ("train", ⟨"python -m weasel run train", [], [], [], "0.4.1"⟩)]) ∧
    alookup [("other", (⟨"x", [], [], [], "v"⟩ : LockEntry)),
        ("train", ⟨"python -m weasel run train", [], [], [], "0.4.1"⟩)] "other" =
      alookup [("other", ⟨"x", [], [], [], "v"⟩)] "other" :=
  ⟨⟨by decide, by decide⟩,
   (update_lockfile_frame ⟨[], [], []⟩ [] [("other", ⟨"x", [], [], [], "v"⟩)]
       ⟨"train", "", [], [], [], []⟩
       [("other", ⟨"x", [], [], [], "v"⟩),
        ("train", ⟨"python -m weasel run train", [], [], [], "0.4.1"⟩)]
       (by decide) (by decide)).1 "other" (by decide)⟩

/-- C3: the per-output push of project_push is a no-op, creating no artifact
and returning no location, precisely when the local path does not exist or
is a directory containing no files at any depth; otherwise the current
local bytes are appended to the backend and a backend location is
returned. -/
theorem project_push_noop_iff (backend : List Artifact) (relPath : PathC)
    (loc : Option Node) (ch : Digest) (ts : Nat) :
    (project_push_output backend relPath loc ch ts = (backend, none) ↔
       loc = none ∨ ∃ cs, loc = some (Node.dir cs) ∧ filesInList cs = []) ∧
    (project_push_output backend relPath loc ch ts = (backend, none) ∨
       ∃ n, loc = some n ∧
         project_push_output backend relPath loc ch ts =
           (backend ++ [⟨relPath, ch, md5 (nodeBytes n), ts, nodeBytes n⟩],
            some ⟨relPath, ch, md5 (nodeBytes n), ts⟩)) := by
  cases loc with
  | none =>
    constructor
    · simp [project_push_output]
    · left
      rfl
  | some n =>
    by_cases hpush : is_not_empty_dir n = true
    · constructor
      · constructor
        · intro h
          exfalso
          simp [project_push_output, hpush, storage_push] at h
        · intro h
          rcases h with h | ⟨cs, hcs, hfl⟩
          · exact Option.noConfusion h
          · exfalso
            cases Option.some.inj hcs
            have hfalse := (is_not_empty_dir_false_iff (Node.dir cs)).mpr
              (by rw [show filesIn (Node.dir cs) = filesInList cs from rfl]; exact hfl)
            rw [hfalse] at hpush
            exact Bool.noConfusion hpush
      · right
        exact ⟨n, rfl, by simp [project_push_output, hpush, storage_push, get_content_hash]⟩
    · rw [Bool.not_eq_true] at hpush
      have hfiles := (is_not_empty_dir_false_iff n).mp hpush
      constructor
      · constructor
        · intro _
          right
          cases n with
          | file b =>
            rw [show filesIn (Node.file b) = [b] from rfl] at hfiles
            exact absurd hfiles (by simp)
          | dir cs =>
            refine ⟨cs, rfl, ?_⟩
            rw [show filesIn (Node.dir cs) = filesInList cs from rfl] at hfiles
            exact hfiles
        · intro _
          simp [project_push_output, hpush]
      · left
        simp [project_push_output, hpush]

end Weasel

namespace Weasel

/-- C4: over a backend holding several artifacts, pull filtered by the
supplied hashes either finds no candidate and leaves the local files
untouched, or restores the payload of the candidate with the greatest
storage timestamp. -/
theorem storage_pull_latest_wins (backend : List Artifact)
    (localFiles : List (PathC × Bytes)) (root p : PathC) (ch cch : Option Digest)
    (hdist : (pull_candidates backend p ch cch).Pairwise
      (fun a b => a.timestamp ≠ b.timestamp)) :
    (pull_candidates backend p ch cch = [] ∧
       storage_pull backend localFiles root p ch cch = localFiles) ∨
    (∃ a ∈ pull_candidates backend p ch cch,
       (∀ b ∈ pull_candidates backend p ch cch, b = a ∨ b.timestamp < a.timestamp) ∧
       storage_pull backend localFiles root p ch cch =
         setKey localFiles (root ++ p) a.payload) := by
  cases hsel : select_latest (pull_candidates backend p ch cch) with
  | none =>
    left
    refine ⟨(select_latest_none_iff _).mp hsel, ?_⟩
    unfold storage_pull
    rw [hsel]
  | some a =>
    right
    obtain ⟨hmem, hmax⟩ := select_latest_spec _ a hsel
    refine ⟨a, hmem, ?_, ?_⟩
    · intro b hb
      by_cases hba : b = a
      · exact Or.inl hba
      · right
        have hne : b.timestamp ≠ a.timestamp :=
          (hdist.forall (fun x y h => Ne.symm h)) hb hmem hba
        exact lt_of_le_of_ne (hmax b hb) hne
    · unfold storage_pull
      rw [hsel]

/-- C4 (witness): the latest-wins example of the spec — two artifacts pushed
for the same path and command hash under different content hashes; a pull by
command hash alone restores the payload with the later timestamp. -/
theorem storage_pull_latest_wins_witness :
    ([(⟨["a"], ⟨[10]⟩, ⟨[12]⟩, 0, [1, 1]⟩ : Artifact),
        ⟨["a"], ⟨[10]⟩, ⟨[11]⟩, 1, [2, 2]⟩].Pairwise
          (fun a b => a.timestamp ≠ b.timestamp) →
      (pull_candidates [⟨["a"], ⟨[10]⟩, ⟨[12]⟩, 0, [1, 1]⟩,
          ⟨["a"], ⟨[10]⟩, ⟨[11]⟩, 1, [2, 2]⟩] ["a"] (some ⟨[10]⟩) none).Pairwise
        (fun a b => a.timestamp ≠ b.timestamp)) ∧
    storage_pull [⟨["a"], ⟨[10]⟩, ⟨[12]⟩, 0, [1, 1]⟩, ⟨["a"], ⟨[10]⟩, ⟨[11]⟩, 1, [2, 2]⟩]
        [] ["root"] ["a"] (some ⟨[10]⟩) none = [(["root", "a"], [2, 2])] :=
  ⟨by decide,
   by
    rcases storage_pull_latest_wins
        [⟨["a"], ⟨[10]⟩, ⟨[12]⟩, 0, [1, 1]⟩, ⟨["a"], ⟨[10]⟩, ⟨[11]⟩, 1, [2, 2]⟩]
        [] ["root"] ["a"] (some ⟨[10]⟩) none (by decide) with
      hcase | hcase
    · exact absurd hcase.1 (by decide)
    · obtain ⟨a, hmem, hmax, heq⟩ := hcase
      rw [heq]
      have ha : a = ⟨["a"], ⟨[10]⟩, ⟨[11]⟩, 1, [2, 2]⟩ := by
        rcases (by decide : ∀ x ∈ pull_candidates
            [(⟨["a"], ⟨[10]⟩, ⟨[12]⟩, 0, [1, 1]⟩ : Artifact),
             ⟨["a"], ⟨[10]⟩, ⟨[11]⟩, 1, [2, 2]⟩] ["a"] (some ⟨[10]⟩) none,
            x = ⟨["a"], ⟨[10]⟩, ⟨[12]⟩, 0, [1, 1]⟩ ∨
            x = ⟨["a"], ⟨[10]⟩, ⟨[11]⟩, 1, [2, 2]⟩) a hmem with h1 | h1
        · exfalso
          rcases hmax ⟨["a"], ⟨[10]⟩, ⟨[11]⟩, 1, [2, 2]⟩ (by decide) with h2 | h2
          · rw [h1] at h2
            exact absurd h2 (by decide)
          · rw [h1] at h2
            exact absurd h2 (by decide)
        · exact h1
      rw [ha]
      decide⟩

/-- C5: the lock entry built for a command carries the script and per-path
hash records, the outputs are the file info of the cached outputs followed
by the non-cached outputs, each recorded hash is null exactly when the path
does not exist on disk, and missing paths produce a normal return, never a
raised exception or abort. -/
theorem get_lock_entry_spec (fs : FS) (dir : PathC) (c : Command)
    (h : ∀ p ∈ c.deps ++ c.outputs ++ c.outputs_no_cache,
        fs.pathExists (dir ++ p) = true →
        (fs.isFile (dir ++ p) || fs.isDir (dir ++ p)) = true) :
    get_lock_entry fs dir c =
      PyResult.ok ⟨COMMANDC ++ " run " ++ c.name, c.script,
        fileinfo_spec fs dir c.deps,
        fileinfo_spec fs dir c.outputs ++ fileinfo_spec fs dir c.outputs_no_cache,
        weasel_version⟩ ∧
    ∀ i ∈ fileinfo_spec fs dir (c.deps ++ c.outputs ++ c.outputs_no_cache),
      (i.md5 = none ↔ fs.pathExists (dir ++ i.path) = false) := by
  have hd : get_fileinfo fs dir c.deps = PyResult.ok (fileinfo_spec fs dir c.deps) :=
    get_fileinfo_ok fs dir c.deps (fun p hp => h p (by simp [hp]))
  have ho : get_fileinfo fs dir c.outputs =
      PyResult.ok (fileinfo_spec fs dir c.outputs) :=
    get_fileinfo_ok fs dir c.outputs (fun p hp => h p (by simp [hp]))
  have honc : get_fileinfo fs dir c.outputs_no_cache =
      PyResult.ok (fileinfo_spec fs dir c.outputs_no_cache) :=
    get_fileinfo_ok fs dir c.outputs_no_cache (fun p hp => h p (by simp [hp]))
  constructor
  · unfold get_lock_entry
    rw [hd, ho, honc]
  · intro i hi
    unfold fileinfo_spec at hi
    obtain ⟨p, hp, hip⟩ := List.mem_map.mp hi
    subst hip
    by_cases hex : fs.pathExists (dir ++ p) = true
    · simp [hex]
    · rw [Bool.not_eq_true] at hex
      simp [hex]

/-- C5 (witness): a command whose dependency is a present file, whose cached
output is a present directory, and whose non-cached output is missing gets a
normal lock entry with null recorded only for the missing path. -/
theorem get_lock_entry_spec_witness :
    (∀ p ∈ ([["cfg"]] : List PathC) ++ [["out"]] ++ [["missing"]],
        FS.pathExists ⟨[(["proj", "cfg"], [3])], [["proj"], ["proj", "out"]], []⟩
          (["proj"] ++ p) = true →
        (FS.isFile ⟨[(["proj", "cfg"], [3])], [["proj"], ["proj", "out"]], []⟩
            (["proj"] ++ p) ||
          FS.isDir ⟨[(["proj", "cfg"], [3])], [["proj"], ["proj", "out"]], []⟩
            (["proj"] ++ p)) = true) ∧
    get_lock_entry ⟨[(["proj", "cfg"], [3])], [["proj"], ["proj", "out"]], []⟩ ["proj"]
        ⟨"train", "help", ["python run.py"], [["cfg"]], [["out"]], [["missing"]]⟩ =
      PyResult.ok ⟨COMMANDC ++ " run " ++ "train", ["python run.py"],
        fileinfo_spec ⟨[(["proj", "cfg"], [3])], [["proj"], ["proj", "out"]], []⟩
          ["proj"] [["cfg"]],
        fileinfo_spec ⟨[(["proj", "cfg"], [3])], [["proj"], ["proj", "out"]], []⟩
            ["proj"] [["out"]] ++
          fileinfo_spec ⟨[(["proj", "cfg"], [3])], [["proj"], ["proj", "out"]], []⟩
            ["proj"] [["missing"]],
        weasel_version⟩ :=
  ⟨by decide,
   (get_lock_entry_spec ⟨[(["proj", "cfg"], [3])], [["proj"], ["proj", "out"]], []⟩
      ["proj"] ⟨"train", "help", ["python run.py"], [["cfg"]], [["out"]], [["missing"]]⟩
      (by decide)).1⟩

/-- C6: the command hash computed at the push call site depends only on the
script lines and the dependency content hashes; two commands with the same
script and the same dependency content but different names and help texts
hash identically. -/
theorem push_command_hash_ignores_metadata (fs : FS) (dir : PathC) (c1 c2 : Command)
    (hscript : c1.script = c2.script)
    (hdeps : dep_content_hashes fs dir c1.deps = dep_content_hashes fs dir c2.deps)
    (hname : c1.name ≠ c2.name) (hhelp : c1.help ≠ c2.help) :
    push_command_hash fs dir c1 = push_command_hash fs dir c2 := by
  unfold push_command_hash get_command_hash
  rw [hscript, hdeps]

/-- C6 (witness): two commands differing only in name and help text, with
one shared dependency file, get the same push command hash. -/
theorem push_command_hash_ignores_metadata_witness :
    ((⟨"train", "Train it", ["python run.py"], [["cfg"]], [], []⟩ : Command).script =
        (⟨"fit", "Fit it", ["python run.py"], [["cfg"]], [], []⟩ : Command).script ∧
      dep_content_hashes ⟨[(["cfg"], [7])], [], []⟩ []
          (⟨"train", "Train it", ["python run.py"], [["cfg"]], [], []⟩ : Command).deps =
        dep_content_hashes ⟨[(["cfg"], [7])], [], []⟩ []
          (⟨"fit", "Fit it", ["python run.py"], [["cfg"]], [], []⟩ : Command).deps ∧
      (⟨"train", "Train it", ["python run.py"], [["cfg"]], [], []⟩ : Command).name ≠
        (⟨"fit", "Fit it", ["python run.py"], [["cfg"]], [], []⟩ : Command).name ∧
      (⟨"train", "Train it", ["python run.py"], [["cfg"]], [], []⟩ : Command).help ≠
        (⟨"fit", "Fit it", ["python run.py"], [["cfg"]], [], []⟩ : Command).help) ∧
    push_command_hash ⟨[(["cfg"], [7])], [], []⟩ []
        ⟨"train", "Train it", ["python run.py"], [["cfg"]], [], []⟩ =
      push_command_hash ⟨[(["cfg"], [7])], [], []⟩ []
        ⟨"fit", "Fit it", ["python run.py"], [["cfg"]], [], []⟩ :=
  ⟨⟨by decide, by decide, by decide, by decide⟩,
   push_command_hash_ignores_metadata ⟨[(["cfg"], [7])], [], []⟩ []
     ⟨"train", "Train it", ["python run.py"], [["cfg"]], [], []⟩
     ⟨"fit", "Fit it", ["python run.py"], [["cfg"]], [], []⟩
     (by decide) (by decide) (by decide) (by decide)⟩

/-- C7 (counterexample): an entry whose destination resolves exactly to the
target directory, not strictly inside it, passes the is_subpath_of check
and is restored with its bytes written, so a destination that does not
resolve strictly inside the target is not rejected. -/
theorem restore_entries_strictness_cex :
    (restore_entries [] ["tmp"] [(["a", ".."], [7])] []).1 =
      RestoreOutcome.restored [(["tmp", "a", ".."], [7])] ∧
    (restore_entries [] ["tmp"] [(["a", ".."], [7])] []).2 =
      [(["tmp", "a", ".."], [7])] ∧
    strictlyInside [] ["tmp"] (["tmp"] ++ ["a", ".."]) = false ∧
    realpath [] (["tmp"] ++ ["a", ".."]) = ["tmp"] := by
  decide

/-- C7 (amended): restoring a multi-entry payload rejects with PathTraversal
exactly when some destination fails the is_subpath_of check against the
target, a rejected restore leaves the local files untouched, and the check
compares the fully resolved paths (symlinks and dot-dot components resolved
by realpath): the parent passes as a component prefix of the resolved child,
the destination being allowed to resolve inside the target or exactly to
it. -/
theorem restore_entries_path_safety (tbl : SymTable) (target : PathC)
    (entries : List (PathC × Bytes)) (localFiles : List (PathC × Bytes)) :
    ((restore_entries tbl target entries localFiles).1 =
        RestoreOutcome.pathTraversal ↔
      ∃ e ∈ entries, is_subpath_of tbl target (target ++ e.1) = false) ∧
    ((restore_entries tbl target entries localFiles).2 = localFiles ∨
      (restore_entries tbl target entries localFiles).1 =
        RestoreOutcome.restored (entries.map (fun e => (target ++ e.1, e.2)))) ∧
    (∀ par ch, is_subpath_of tbl par ch = true ↔
      prefixOfP (realpath tbl par) (realpath tbl ch) = true) := by
  refine ⟨?_, ?_, ?_⟩
  · by_cases hall :
        entries.all (fun e => is_subpath_of tbl target (target ++ e.1)) = true
    · unfold restore_entries
      rw [if_pos hall]
      constructor
      · intro h
        exact RestoreOutcome.noConfusion h
      · rintro ⟨e, he, hfalse⟩
        have htrue := List.all_eq_true.mp hall e he
        rw [hfalse] at htrue
        exact Bool.noConfusion htrue
    · unfold restore_entries
      rw [if_neg hall]
      constructor
      · intro _
        rw [List.all_eq_true] at hall
        push_neg at hall
        obtain ⟨e, he, hne⟩ := hall
        refine ⟨e, he, ?_⟩
        simp only [Bool.not_eq_true] at hne
        exact hne
      · intro _
        rfl
  · by_cases hall :
        entries.all (fun e => is_subpath_of tbl target (target ++ e.1)) = true
    · right
      unfold restore_entries
      rw [if_pos hall]
    · left
      unfold restore_entries
      rw [if_neg hall]
  · intro par ch
    unfold is_subpath_of
    rw [decide_eq_true_eq]
    exact commonpath_eq_left_iff (realpath tbl par) (realpath tbl ch)

end Weasel

namespace Weasel

/-- C8: get_checksum produces a digest exactly when the path is an existing
regular file or a directory, and takes its failure branch (the InvalidTarget
failure, realized as msg.fail with exits=1) exactly when the path is neither
a file nor a directory. -/
theorem get_checksum_dispatch (fs : FS) (p : PathC) :
    ((∃ dg, get_checksum fs p = PyResult.ok dg) ↔
      (fs.isFile p || fs.isDir p) = true) ∧
    (get_checksum fs p = PyResult.sysExit 1 ↔
      (fs.isFile p || fs.isDir p) = false) := by
  by_cases h : (fs.isFile p || fs.isDir p) = true
  · have hok := get_checksum_ok fs p h
    constructor
    · simp [hok, h]
    · simp [hok, h]
  · rw [Bool.not_eq_true] at h
    have hfail : get_checksum fs p = PyResult.sysExit 1 := by
      unfold get_checksum
      rw [h]
      rfl
    constructor
    · simp [hfail, h]
    · simp [hfail, h]

/-- C9 (counterexample): at each of the three cited sites the code performs
a direct process exit with code 1 on the fatal condition — get_checksum on a
path that is neither file nor directory, the transport helper on an azure
URL without a connection string in the environment, and
load_project_config on a missing project.yml — rather than propagating an
error value or exception. -/
theorem fatal_conditions_exit_cex :
    get_checksum ⟨[], [], [["fifo"]]⟩ ["fifo"] = PyResult.sysExit 1 ∧
    transport_params "azure://container" (fun _ => none) = PyResult.sysExit 1 ∧
    load_project_config ⟨false, true, [], []⟩ = PyResult.sysExit 1 :=
  ⟨by decide, rfl, by decide⟩

/-- C9 (amended): on the fatal conditions at the cited sites the operations
terminate the process directly with exit code 1 — get_checksum exactly when
the path is neither file nor directory, the transport helper exactly when
the URL is an azure URL and the connection-string variable is unset, and
load_project_config exactly when the configuration is missing, unparsable
or invalid — and none of them ever surfaces a raised exception value. -/
theorem fatal_conditions_exit_process (fs : FS) (p : PathC) (url : String)
    (env : String → Option String) (st : ProjectDirState) :
    (get_checksum fs p = PyResult.sysExit 1 ↔
      (fs.isFile p || fs.isDir p) = false) ∧
    (transport_params url env = PyResult.sysExit 1 ↔
      (startsWithB "azure://" url = true ∧
        env "AZURE_STORAGE_CONNECTION_STRING" = none)) ∧
    (load_project_config st = PyResult.sysExit 1 ↔
      ¬(st.configExists = true ∧ st.yamlParses = true ∧ st.schemaErrors = [])) ∧
    (∀ m, get_checksum fs p ≠ PyResult.exc m) ∧
    (∀ m, transport_params url env ≠ PyResult.exc m) ∧
    (∀ m, load_project_config st ≠ PyResult.exc m) := by
  refine ⟨?_, ?_, ?_, ?_, ?_, ?_⟩
  · by_cases h : (fs.isFile p || fs.isDir p) = true
    · have hok := get_checksum_ok fs p h
      simp [hok, h]
    · rw [Bool.not_eq_true] at h
      have hfail : get_checksum fs p = PyResult.sysExit 1 := by
        unfold get_checksum
        rw [h]
        rfl
      simp [hfail, h]
  · by_cases haz : startsWithB "azure://" url = true
    · cases henv : env "AZURE_STORAGE_CONNECTION_STRING" with
      | none => simp [transport_params, haz, henv]
      | some cs => simp [transport_params, haz, henv]
    · rw [Bool.not_eq_true] at haz
      simp [transport_params, haz]
  · cases hcfg : st.configExists with
    | false => simp [load_project_config, hcfg]
    | true =>
      cases hy : st.yamlParses with
      | false => simp [load_project_config, hcfg, hy]
      | true =>
        by_cases hs : st.schemaErrors = []
        · simp [load_project_config, hcfg, hy, hs]
        · simp [load_project_config, hcfg, hy, hs]
  · intro m
    by_cases h : (fs.isFile p || fs.isDir p) = true
    · have hok := get_checksum_ok fs p h
      simp [hok]
    · rw [Bool.not_eq_true] at h
      unfold get_checksum
      rw [h]
      simp
  · intro m
    by_cases haz : startsWithB "azure://" url = true
    · cases henv : env "AZURE_STORAGE_CONNECTION_STRING" with
      | none => simp [transport_params, haz, henv]
      | some cs => simp [transport_params, haz, henv]
    · rw [Bool.not_eq_true] at haz
      simp [transport_params, haz]
  · intro m
    cases hcfg : st.configExists with
    | false => simp [load_project_config, hcfg]
    | true =>
      cases hy : st.yamlParses with
      | false => simp [load_project_config, hcfg, hy]
      | true =>
        by_cases hs : st.schemaErrors = []
        · simp [load_project_config, hcfg, hy, hs]
        · simp [load_project_config, hcfg, hy, hs]

/-- C10: download_file without force returns the destination bytes
unchanged, and without reading the source, exactly when the destination
already exists; in particular an existing destination with force unset is
returned as is, with the source unread. -/
theorem download_file_skips_existing (srcContent : Bytes) (dest : Option Bytes)
    (force : Bool) :
    (download_file srcContent dest force = (dest, false) ↔
      (dest.isSome = true ∧ force = false)) ∧
    ∀ b, download_file srcContent (some b) false = (some b, false) := by
  constructor
  · cases dest with
    | none =>
      cases force with
      | false => simp [download_file]
      | true => simp [download_file]
    | some b =>
      cases force with
      | false => simp [download_file]
      | true => simp [download_file]
  · intro b
    rfl

end Weasel
